import Mathlib

/-!
Shallow embedding of the workout-logger CRUD API (Next.js route handlers over a
Prisma store with tables `workouts`, `exercises`, `sets`).

The store is modelled as three lists of rows plus auto-increment counters
(`prisma/schema.prisma`).  Each route handler becomes a pure function from a
store (and the request data) to a response together with the next store.
Dates are modelled as natural-number timestamps; the ISO-string conversion at
the HTTP boundary is a bijective presentation change and is elided.
-/

namespace WorkoutLogger

/-- Row of the `sets` table: `id PK, reps Int, weight Int, exerciseId FK`. -/
structure SetRow where
  id : Nat
  reps : Int
  weight : Int
  exerciseId : Nat
  deriving Repr, DecidableEq

/-- Row of the `exercises` table: `id PK, name, workoutId FK`. -/
structure ExerciseRow where
  id : Nat
  name : String
  workoutId : Nat
  deriving Repr, DecidableEq

/-- Row of the `workouts` table: `id PK, date`. -/
structure WorkoutRow where
  id : Nat
  date : Nat
  deriving Repr, DecidableEq

/-- The relational store, with auto-increment counters for the three tables. -/
structure Store where
  workouts : List WorkoutRow
  exercises : List ExerciseRow
  sets : List SetRow
  nextWorkoutId : Nat
  nextExerciseId : Nat
  nextSetId : Nat
  deriving Repr, DecidableEq

/-- The empty database: no rows, auto-increment counters start at 1 (MySQL). -/
def emptyStore : Store := ⟨[], [], [], 1, 1, 1⟩

/-- Well-formedness of a store: every row id is below its table's counter
(ids are never reused), and foreign keys reference existing rows. -/
def Store.WF (s : Store) : Prop :=
  (∀ w ∈ s.workouts, w.id < s.nextWorkoutId) ∧
  (∀ e ∈ s.exercises, e.id < s.nextExerciseId) ∧
  (∀ r ∈ s.sets, r.id < s.nextSetId) ∧
  (∀ e ∈ s.exercises, ∃ w ∈ s.workouts, e.workoutId = w.id) ∧
  (∀ r ∈ s.sets, ∃ e ∈ s.exercises, r.exerciseId = e.id)

instance (s : Store) : Decidable s.WF := by
  unfold Store.WF; infer_instance

/-- Wire shape of one set in every route's JSON response. -/
structure SetResp where
  id : Nat
  reps : Int
  weight : Int
  deriving Repr, DecidableEq

/-- Wire shape of one exercise in every route's JSON response. -/
structure ExerciseResp where
  id : Nat
  name : String
  sets : List SetResp
  deriving Repr, DecidableEq

/-- Wire shape of a workout response: the nested include of exercises and sets,
as produced by `include: { exercises: { include: { sets: true } } }`. -/
structure WorkoutResp where
  id : Nat
  date : Nat
  exercises : List ExerciseResp
  deriving Repr, DecidableEq

/-- API error taxonomy: `invalidArgument` is HTTP 400, `notFound` is HTTP 404,
and `storageFailure` is HTTP 500, the catch-all for persistence-layer
exceptions such as a Prisma validation error. -/
inductive ApiError where
  | invalidArgument : ApiError
  | notFound : ApiError
  | storageFailure : ApiError
  deriving Repr, DecidableEq

/-- Projection of a set row to its response shape. -/
def setResp (r : SetRow) : SetResp := ⟨r.id, r.reps, r.weight⟩

/-- Nested include of one exercise: its row fields plus all set rows whose
`exerciseId` references it, in table order. -/
def exerciseResp (s : Store) (e : ExerciseRow) : ExerciseResp :=
  ⟨e.id, e.name, (s.sets.filter (fun r => r.exerciseId == e.id)).map setResp⟩

/-- Nested include of one workout: its row fields plus all exercise rows whose
`workoutId` references it, each with its sets. -/
def nestedWorkout (s : Store) (w : WorkoutRow) : WorkoutResp :=
  ⟨w.id, w.date, (s.exercises.filter (fun e => e.workoutId == w.id)).map (exerciseResp s)⟩

/-! ### JavaScript `parseInt(id, 10)`

The three id-taking routes validate the path parameter with
`parseInt(id, 10)` followed by an `isNaN` check.  `parseInt` skips leading
whitespace, accepts an optional sign, then reads the longest digit prefix,
returning NaN (here `none`) only when that prefix is empty. -/

/-- Numeric value of a digit string (most significant first). -/
def digitsToNat (ds : List Char) : Nat :=
  ds.foldl (fun a c => a * 10 + (c.toNat - 48)) 0

/-- Longest digit prefix of a character list, as a number; `none` if the list
does not start with a digit. -/
def digitsVal (cs : List Char) : Option Nat :=
  let ds := cs.takeWhile Char.isDigit
  if ds.isEmpty then none else some (digitsToNat ds)

/-- Model of JavaScript `parseInt(s, 10)`: `none` models NaN. -/
def parseIntJS (s : String) : Option Int :=
  let cs := s.data.dropWhile Char.isWhitespace
  match cs with
  | [] => none
  | c :: rest =>
    if c = '-' then (digitsVal rest).map (fun n => -(n : Int))
    else if c = '+' then (digitsVal rest).map (fun n => (n : Int))
    else (digitsVal cs).map (fun n => (n : Int))

/-- A well-formed positive integer id string: non-empty, all digits, and of
positive value (the spec's "well-formed positive integer"). -/
def WellFormedPosInt (s : String) : Prop :=
  s.data ≠ [] ∧ (∀ c ∈ s.data, c.isDigit) ∧ 0 < digitsToNat s.data

instance (s : String) : Decidable (WellFormedPosInt s) := by
  unfold WellFormedPosInt; infer_instance

/-! ### GET /api/get-workouts (list) and GET /api/get-workout/[id] -/

/-- Descending-date order used by `orderBy: { date: 'desc' }`. -/
def dateDesc (a b : WorkoutRow) : Prop := b.date ≤ a.date

instance : DecidableRel dateDesc := fun a b => Nat.decLe b.date a.date

instance : IsTotal WorkoutRow dateDesc :=
  ⟨fun a b => Nat.le_total b.date a.date⟩

instance : IsTrans WorkoutRow dateDesc :=
  ⟨fun _ _ _ h1 h2 => Nat.le_trans h2 h1⟩

/-- GET /api/get-workouts: all workouts with nested exercises and sets,
ordered by date descending.  Read-only: the store is returned unchanged. -/
def listWorkouts (s : Store) : List WorkoutResp × Store :=
  ((s.workouts.insertionSort dateDesc).map (nestedWorkout s), s)

/-- GET /api/get-workout/[id]: validate the id with `parseInt`, then
`findUnique`; 400 on NaN, 404 when no workout matches, else the nested
workout.  Read-only: the store is returned unchanged. -/
def getWorkoutById (s : Store) (idStr : String) : Except ApiError WorkoutResp × Store :=
  match parseIntJS idStr with
  | none => (Except.error ApiError.invalidArgument, s)
  | some wid =>
    match s.workouts.find? (fun w => (w.id : Int) == wid) with
    | none => (Except.error ApiError.notFound, s)
    | some w => (Except.ok (nestedWorkout s w), s)

/-! ### POST /api/save-workout -/

/-- One entry of the create request body: `{ exercise, weight, reps }`. -/
structure WorkoutEntry where
  exercise : String
  weight : Int
  reps : Int
  deriving Repr, DecidableEq

/-- Append a freshly created set row for exercise `eid`. -/
def addSet (s : Store) (eid : Nat) (reps weight : Int) : Store :=
  { s with
    sets := s.sets ++ [⟨s.nextSetId, reps, weight, eid⟩],
    nextSetId := s.nextSetId + 1 }

/-- One step of the nested create: the entry becomes its own exercise row with
exactly one set row. -/
def addEntry (wid : Nat) (s : Store) (en : WorkoutEntry) : Store :=
  let eid := s.nextExerciseId
  let s1 := { s with
    exercises := s.exercises ++ [⟨eid, en.exercise, wid⟩],
    nextExerciseId := eid + 1 }
  addSet s1 eid en.reps en.weight

/-- POST /api/save-workout: reject a missing or empty entry list with 400;
otherwise create one workout dated `now` whose exercises are the entries in
order, each with a single set, and answer with the nested include. -/
def createWorkout (s : Store) (now : Nat) (req : Option (List WorkoutEntry)) :
    Except ApiError WorkoutResp × Store :=
  match req with
  | none => (Except.error ApiError.invalidArgument, s)
  | some entries =>
    if entries.isEmpty then (Except.error ApiError.invalidArgument, s)
    else
      let wrow : WorkoutRow := ⟨s.nextWorkoutId, now⟩
      let s1 := { s with
        workouts := s.workouts ++ [wrow],
        nextWorkoutId := s.nextWorkoutId + 1 }
      let s2 := entries.foldl (addEntry wrow.id) s1
      (Except.ok (nestedWorkout s2 wrow), s2)

/-! ### PUT /api/update-workout/[id] -/

/-- One set of the update request body: `{ id?, reps, weight }`. -/
structure UpdateSet where
  id : Option Nat
  reps : Int
  weight : Int
  deriving Repr, DecidableEq

/-- One exercise of the update request body: `{ id?, name, sets }`. -/
structure UpdateExercise where
  id : Option Nat
  name : String
  sets : List UpdateSet
  deriving Repr, DecidableEq

/-- Update request body: `{ date?, exercises? }`. -/
structure UpdateReq where
  date : Option Nat
  exercises : Option (List UpdateExercise)
  deriving Repr, DecidableEq

/-- Nested set upsert inside an exercise update: a supplied set whose id
matches a set row of exercise `eid` has its reps and weight rewritten in
place; a supplied id with no match creates a fresh set row under `eid`.
The id-less case is unreachable: a set without an id makes the whole update
request fail Prisma's document validation (`where: { id: undefined }` is an
empty `SetWhereUniqueInput`), so `updateWorkout` rejects such requests before
this function runs and nothing is written; the branch here leaves the store
untouched. -/
def upsertSet (s : Store) (eid : Nat) (us : UpdateSet) : Store :=
  match us.id with
  | some sid =>
    if s.sets.any (fun r => r.id == sid && r.exerciseId == eid) then
      { s with
        sets := s.sets.map (fun r =>
          if r.id == sid && r.exerciseId == eid then
            { r with reps := us.reps, weight := us.weight }
          else r) }
    else addSet s eid us.reps us.weight
  | none => s

/-- Create branch of the exercise upsert: a fresh exercise row under workout
`wid`, with every supplied set created fresh (supplied set ids are ignored
here, as in the `create:` branch of the Prisma query). -/
def createExerciseWithSets (s : Store) (wid : Nat) (ue : UpdateExercise) : Store :=
  let eid := s.nextExerciseId
  let s1 := { s with
    exercises := s.exercises ++ [⟨eid, ue.name, wid⟩],
    nextExerciseId := eid + 1 }
  ue.sets.foldl (fun acc us => addSet acc eid us.reps us.weight) s1

/-- Nested exercise upsert: a supplied exercise whose id matches an exercise
row of workout `wid` has its name rewritten and its sets upserted in turn;
a supplied id with no match creates a fresh exercise row with all its sets.
The id-less case is unreachable: an exercise without an id makes the whole
update request fail Prisma's document validation (`where: { id: undefined }`
is an empty `ExerciseWhereUniqueInput`), so `updateWorkout` rejects such
requests before this function runs and nothing is written; the branch here
leaves the store untouched. -/
def upsertExercise (s : Store) (wid : Nat) (ue : UpdateExercise) : Store :=
  match ue.id with
  | some eid =>
    if s.exercises.any (fun e => e.id == eid && e.workoutId == wid) then
      let s1 := { s with
        exercises := s.exercises.map (fun e =>
          if e.id == eid && e.workoutId == wid then { e with name := ue.name }
          else e) }
      ue.sets.foldl (fun acc us => upsertSet acc eid us) s1
    else createExerciseWithSets s wid ue
  | none => s

/-- Whether the nested upsert document built from an update request passes
Prisma's client-side validation: every `where: { id: ... }` clause of the
document must carry an id, i.e. every supplied exercise and every supplied
set has one.  Prisma validates the whole document — both the `update` and
`create` subtrees of every upsert — before executing anything, so a single
id-less item fails the entire request with a `PrismaClientValidationError`
(caught by the route as a 500) and no row is written.  A request without an
exercise list builds no upsert document and always validates. -/
def validUpdateReq (req : UpdateReq) : Bool :=
  match req.exercises with
  | none => true
  | some exs =>
    exs.all (fun ue => ue.id.isSome && ue.sets.all (fun us => us.id.isSome))

/-- PUT /api/update-workout/[id]: validate the id with `parseInt` (400 on
NaN), `findUnique` the workout (404 when absent), then run the single
`prisma.workout.update` call: if the nested upsert document contains an
id-less exercise or set, Prisma's validation throws before anything is
written and the route answers 500 with the store unchanged; otherwise the
date is optionally rewritten and each supplied exercise upserted in order.
Rows absent from the supplied list are never deleted.  Answers with the
nested include of the updated workout. -/
def updateWorkout (s : Store) (idStr : String) (req : UpdateReq) :
    Except ApiError WorkoutResp × Store :=
  match parseIntJS idStr with
  | none => (Except.error ApiError.invalidArgument, s)
  | some wid =>
    match s.workouts.find? (fun w => (w.id : Int) == wid) with
    | none => (Except.error ApiError.notFound, s)
    | some w =>
      if validUpdateReq req then
        let w1 : WorkoutRow := { w with date := req.date.getD w.date }
        let s1 := match req.date with
          | some d => { s with
              workouts := s.workouts.map (fun r =>
                if r.id == w.id then { r with date := d } else r) }
          | none => s
        let s2 := match req.exercises with
          | some exs => exs.foldl (fun acc ue => upsertExercise acc w.id ue) s1
          | none => s1
        (Except.ok (nestedWorkout s2 w1), s2)
      else (Except.error ApiError.storageFailure, s)

/-! ### DELETE /api/delete-workout/[id] -/

/-- DELETE /api/delete-workout/[id]: validate the id with `parseInt` (400 on
NaN), `findUnique` the workout (404 when absent), then delete it; the
`onDelete: Cascade` relations of the schema remove its exercise rows and
their set rows with it. -/
def deleteWorkout (s : Store) (idStr : String) : Except ApiError String × Store :=
  match parseIntJS idStr with
  | none => (Except.error ApiError.invalidArgument, s)
  | some wid =>
    match s.workouts.find? (fun w => (w.id : Int) == wid) with
    | none => (Except.error ApiError.notFound, s)
    | some w =>
      let s1 : Store := { s with
        workouts := s.workouts.filter (fun r => !(r.id == w.id)),
        exercises := s.exercises.filter (fun e => !(e.workoutId == w.id)),
        sets := s.sets.filter (fun r =>
          !(s.exercises.any (fun e => e.id == r.exerciseId && e.workoutId == w.id))) }
      (Except.ok "Workout deleted successfully.", s1)

/-- Decidable equality on results, for concrete evaluation. -/
instance {ε α : Type} [DecidableEq ε] [DecidableEq α] : DecidableEq (Except ε α) := fun x y =>
  match x, y with
  | Except.error a, Except.error b =>
    if h : a = b then Decidable.isTrue (by rw [h])
    else Decidable.isFalse (fun hh => h (Except.error.inj hh))
  | Except.error _, Except.ok _ => Decidable.isFalse (fun hh => Except.noConfusion hh)
  | Except.ok _, Except.error _ => Decidable.isFalse (fun hh => Except.noConfusion hh)
  | Except.ok a, Except.ok b =>
    if h : a = b then Decidable.isTrue (by rw [h])
    else Decidable.isFalse (fun hh => h (Except.ok.inj hh))

/-- Whether a route result is a success response. -/
def isOkResult {ε α : Type} : Except ε α → Bool
  | Except.ok _ => true
  | Except.error _ => false

/-! ### Specification helpers -/

/-- The exercise rows a create request appends: one per entry, in order, with
consecutive fresh ids starting at `eid`. -/
def createdExercises (wid : Nat) : List WorkoutEntry → Nat → List ExerciseRow
  | [], _ => []
  | en :: rest, eid => ⟨eid, en.exercise, wid⟩ :: createdExercises wid rest (eid + 1)

/-- The set rows a create request appends: one per entry, the i-th belonging
to the i-th created exercise. -/
def createdSets : List WorkoutEntry → Nat → Nat → List SetRow
  | [], _, _ => []
  | en :: rest, eid, sid => ⟨sid, en.reps, en.weight, eid⟩ :: createdSets rest (eid + 1) (sid + 1)

/-- The data-model invariant of section 3 of the spec: every stored set has
non-negative reps and weight. -/
def SetsNonneg (s : Store) : Prop := ∀ r ∈ s.sets, 0 ≤ r.reps ∧ 0 ≤ r.weight

instance (s : Store) : Decidable (SetsNonneg s) := by
  unfold SetsNonneg; infer_instance

/-- A mutating request against the store: create-workout or update-workout. -/
inductive Op where
  | create (now : Nat) (req : Option (List WorkoutEntry)) : Op
  | update (idStr : String) (req : UpdateReq) : Op
  deriving Repr

/-- Store transition of one mutating request. -/
def applyOp (s : Store) : Op → Store
  | Op.create now req => (createWorkout s now req).2
  | Op.update idStr req => (updateWorkout s idStr req).2

/-- Store reached after a sequence of mutating requests. -/
def runOps (s : Store) (ops : List Op) : Store := ops.foldl applyOp s

/-- All reps and weights supplied by a request are non-negative. -/
def OpNonneg : Op → Prop
  | Op.create _ none => True
  | Op.create _ (some entries) => ∀ en ∈ entries, 0 ≤ en.reps ∧ 0 ≤ en.weight
  | Op.update _ ⟨_, none⟩ => True
  | Op.update _ ⟨_, some exs⟩ =>
      ∀ ue ∈ exs, ∀ us ∈ ue.sets, 0 ≤ us.reps ∧ 0 ≤ us.weight

instance (op : Op) : Decidable (OpNonneg op) := by
  cases op with
  | create now req =>
    cases req with
    | none => unfold OpNonneg; infer_instance
    | some entries => unfold OpNonneg; infer_instance
  | update idStr req =>
    obtain ⟨d, exs⟩ := req
    cases exs with
    | none => unfold OpNonneg; infer_instance
    | some l => unfold OpNonneg; infer_instance

/-- The store after inserting the new workout row of a create request,
before its exercises are added. -/
def createBase (s : Store) (now : Nat) : Store :=
  { s with
    workouts := s.workouts ++ [⟨s.nextWorkoutId, now⟩],
    nextWorkoutId := s.nextWorkoutId + 1 }

/-! ## Theorems -/

theorem isWhitespace_eq_false_of_isDigit {c : Char} (h : c.isDigit) :
    c.isWhitespace = false := by
  simp [Char.isDigit, Char.isWhitespace] at *
  obtain ⟨h1, h2⟩ := h
  repeat' apply And.intro
  all_goals rintro rfl
  all_goals exact absurd h1 (by decide)

theorem ne_sign_of_isDigit {c : Char} (h : c.isDigit) : ¬(c = '-') ∧ ¬(c = '+') := by
  simp [Char.isDigit] at h
  obtain ⟨h1, h2⟩ := h
  constructor
  all_goals rintro rfl
  · exact absurd h1 (by decide)
  · exact absurd h1 (by decide)

theorem parseIntJS_of_digits {s : String} (hne : s.data ≠ [])
    (hdig : ∀ c ∈ s.data, c.isDigit) :
    parseIntJS s = some ((digitsToNat s.data : Nat) : Int) := by
  unfold parseIntJS
  cases hd : s.data with
  | nil => exact absurd hd hne
  | cons c rest =>
    have hc : c.isDigit := hdig c (by rw [hd]; exact List.mem_cons_self c rest)
    have hw : c.isWhitespace = false := isWhitespace_eq_false_of_isDigit hc
    have hs := ne_sign_of_isDigit hc
    rw [List.dropWhile_cons_of_neg (by simp [hw])]
    simp only [if_neg hs.1, if_neg hs.2]
    unfold digitsVal
    have ht : (c :: rest).takeWhile Char.isDigit = c :: rest :=
      List.takeWhile_eq_self_iff.mpr (by rw [← hd]; exact hdig)
    rw [ht]
    simp

theorem parseIntJS_of_wellFormed {s : String} (h : WellFormedPosInt s) :
    parseIntJS s = some ((digitsToNat s.data : Nat) : Int) :=
  parseIntJS_of_digits h.1 h.2.1

theorem get_invalid_iff (s : Store) (idStr : String) :
    (getWorkoutById s idStr).1 = Except.error ApiError.invalidArgument ↔
      parseIntJS idStr = none := by
  unfold getWorkoutById
  cases h : parseIntJS idStr with
  | none => simp
  | some wid =>
    cases hf : s.workouts.find? (fun w => (w.id : Int) == wid) with
    | none => simp [hf]
    | some w => simp [hf]

theorem update_invalid_iff (s : Store) (idStr : String) (req : UpdateReq) :
    (updateWorkout s idStr req).1 = Except.error ApiError.invalidArgument ↔
      parseIntJS idStr = none := by
  unfold updateWorkout
  cases h : parseIntJS idStr with
  | none => simp
  | some wid =>
    cases hf : s.workouts.find? (fun w => (w.id : Int) == wid) with
    | none => simp [hf]
    | some w => by_cases hv : validUpdateReq req <;> simp [hf, hv]

theorem delete_invalid_iff (s : Store) (idStr : String) :
    (deleteWorkout s idStr).1 = Except.error ApiError.invalidArgument ↔
      parseIntJS idStr = none := by
  unfold deleteWorkout
  cases h : parseIntJS idStr with
  | none => simp
  | some wid =>
    cases hf : s.workouts.find? (fun w => (w.id : Int) == wid) with
    | none => simp [hf]
    | some w => simp [hf]


/-- C3 (counterexample): the id string "0" is not a well-formed positive
integer, yet all three id-taking routes answer NotFound (404) on it, not
InvalidArgument (400): `parseInt("0", 10)` is 0, not NaN, so validation
passes and the lookup fails instead. -/
theorem invalidId_claim_counterexample :
    ¬ WellFormedPosInt "0" ∧
    (getWorkoutById emptyStore "0").1 = Except.error ApiError.notFound ∧
    (updateWorkout emptyStore "0" ⟨none, none⟩).1 = Except.error ApiError.notFound ∧
    (deleteWorkout emptyStore "0").1 = Except.error ApiError.notFound ∧
    ApiError.notFound ≠ ApiError.invalidArgument := by
  exact ⟨by decide, by decide, by decide, by decide, by decide⟩

/-- C3 (amended): each of get-workout-by-id, update-workout and
delete-workout fails with InvalidArgument (400) exactly when
`parseInt(id, 10)` is NaN, i.e. when the id string (after optional leading
whitespace and sign) does not begin with a digit; every well-formed positive
integer id passes validation, but so do strings such as "0", "-5" or
"3abc". -/
theorem invalidId_validation_amended (s : Store) (idStr : String) (req : UpdateReq) :
    ((getWorkoutById s idStr).1 = Except.error ApiError.invalidArgument ↔
      parseIntJS idStr = none) ∧
    ((updateWorkout s idStr req).1 = Except.error ApiError.invalidArgument ↔
      parseIntJS idStr = none) ∧
    ((deleteWorkout s idStr).1 = Except.error ApiError.invalidArgument ↔
      parseIntJS idStr = none) ∧
    (WellFormedPosInt idStr →
      (getWorkoutById s idStr).1 ≠ Except.error ApiError.invalidArgument ∧
      (updateWorkout s idStr req).1 ≠ Except.error ApiError.invalidArgument ∧
      (deleteWorkout s idStr).1 ≠ Except.error ApiError.invalidArgument) := by
  refine ⟨get_invalid_iff s idStr, update_invalid_iff s idStr req,
    delete_invalid_iff s idStr, ?_⟩
  intro h
  have hp := parseIntJS_of_wellFormed h
  refine ⟨?_, ?_, ?_⟩
  · intro hc; rw [get_invalid_iff, hp] at hc; exact Option.noConfusion hc
  · intro hc; rw [update_invalid_iff, hp] at hc; exact Option.noConfusion hc
  · intro hc; rw [delete_invalid_iff, hp] at hc; exact Option.noConfusion hc

theorem invalidId_validation_amended_witness :
    (getWorkoutById emptyStore "7").1 ≠ Except.error ApiError.invalidArgument ∧
    (updateWorkout emptyStore "7" ⟨none, none⟩).1 ≠ Except.error ApiError.invalidArgument ∧
    (deleteWorkout emptyStore "7").1 ≠ Except.error ApiError.invalidArgument :=
  (invalidId_validation_amended emptyStore "7" ⟨none, none⟩).2.2.2 (by decide)

/-- C10: list-workouts and get-workout-by-id are read-only: for every store
and every id string, the store after the operation is the store before it,
whichever of the 200/400/404 outcomes occurs. -/
theorem reads_leave_store_unchanged (s : Store) (idStr : String) :
    (listWorkouts s).2 = s ∧ (getWorkoutById s idStr).2 = s := by
  refine ⟨rfl, ?_⟩
  unfold getWorkoutById
  cases h : parseIntJS idStr with
  | none => rfl
  | some wid =>
    cases hf : s.workouts.find? (fun w => (w.id : Int) == wid) with
    | none => simp [hf]
    | some w => simp [hf]

/-- C9: each mutating operation is atomic over the nested records: whenever
create-workout, update-workout or delete-workout fails — including the
update's Prisma validation failure on an id-less exercise or set, which
throws before anything executes — the store is exactly its prior state (no
partial write survives).  Each operation is a single store transition,
mirroring the single nested Prisma query it executes; the success-side
completeness (all rows written or removed) is the content of the create,
update and delete theorems. -/
theorem mutations_atomic_on_error (s : Store) (now : Nat)
    (req : Option (List WorkoutEntry)) (idStr : String) (ureq : UpdateReq)
    (dStr : String) :
    (isOkResult (createWorkout s now req).1 = false → (createWorkout s now req).2 = s) ∧
    (isOkResult (updateWorkout s idStr ureq).1 = false → (updateWorkout s idStr ureq).2 = s) ∧
    (isOkResult (deleteWorkout s dStr).1 = false → (deleteWorkout s dStr).2 = s) := by
  refine ⟨?_, ?_, ?_⟩
  · unfold createWorkout
    cases req with
    | none => intro _; rfl
    | some entries =>
      by_cases he : entries.isEmpty <;> simp [he, isOkResult]
  · unfold updateWorkout
    cases h : parseIntJS idStr with
    | none => intro _; rfl
    | some wid =>
      cases hf : s.workouts.find? (fun w => (w.id : Int) == wid) with
      | none => simp [hf]
      | some w => by_cases hv : validUpdateReq ureq <;> simp [hf, hv, isOkResult]
  · unfold deleteWorkout
    cases h : parseIntJS dStr with
    | none => intro _; rfl
    | some wid =>
      cases hf : s.workouts.find? (fun w => (w.id : Int) == wid) with
      | none => simp [hf]
      | some w => simp [hf, isOkResult]

theorem mutations_atomic_on_error_witness :
    (createWorkout ⟨[⟨1, 5⟩], [], [], 2, 1, 1⟩ 0 none).2 = ⟨[⟨1, 5⟩], [], [], 2, 1, 1⟩ ∧
    (updateWorkout ⟨[⟨1, 5⟩], [], [], 2, 1, 1⟩ "1"
      ⟨none, some [⟨none, "Lunge", [⟨none, 8, 40⟩]⟩]⟩).2 = ⟨[⟨1, 5⟩], [], [], 2, 1, 1⟩ ∧
    (deleteWorkout ⟨[⟨1, 5⟩], [], [], 2, 1, 1⟩ "abc").2 = ⟨[⟨1, 5⟩], [], [], 2, 1, 1⟩ :=
  ⟨(mutations_atomic_on_error ⟨[⟨1, 5⟩], [], [], 2, 1, 1⟩ 0 none "1"
      ⟨none, some [⟨none, "Lunge", [⟨none, 8, 40⟩]⟩]⟩ "abc").1 (by decide),
   (mutations_atomic_on_error ⟨[⟨1, 5⟩], [], [], 2, 1, 1⟩ 0 none "1"
      ⟨none, some [⟨none, "Lunge", [⟨none, 8, 40⟩]⟩]⟩ "abc").2.1 (by decide),
   (mutations_atomic_on_error ⟨[⟨1, 5⟩], [], [], 2, 1, 1⟩ 0 none "1"
      ⟨none, some [⟨none, "Lunge", [⟨none, 8, 40⟩]⟩]⟩ "abc").2.2 (by decide)⟩

theorem foldl_addEntry_eq (l : List WorkoutEntry) (wid : Nat) : ∀ (s : Store),
    l.foldl (addEntry wid) s =
      { s with
        exercises := s.exercises ++ createdExercises wid l s.nextExerciseId,
        sets := s.sets ++ createdSets l s.nextExerciseId s.nextSetId,
        nextExerciseId := s.nextExerciseId + l.length,
        nextSetId := s.nextSetId + l.length } := by
  induction l with
  | nil => intro s; simp [createdExercises, createdSets]
  | cons en rest ih =>
    intro s
    rw [List.foldl_cons, ih]
    simp [addEntry, addSet, createdExercises, createdSets, List.append_assoc]
    omega

theorem createdSets_exerciseId_ge {l : List WorkoutEntry} : ∀ {e0 s0 : Nat},
    ∀ r ∈ createdSets l e0 s0, e0 ≤ r.exerciseId := by
  induction l with
  | nil => intro e0 s0 r hr; simp [createdSets] at hr
  | cons en rest ih =>
    intro e0 s0 r hr
    simp only [createdSets, List.mem_cons] at hr
    cases hr with
    | inl h => rw [h]
    | inr h => exact Nat.le_trans (Nat.le_succ e0) (ih r h)

theorem createdExercises_mem {wid : Nat} {l : List WorkoutEntry} : ∀ {e0 : Nat},
    ∀ e ∈ createdExercises wid l e0, e.workoutId = wid ∧ e0 ≤ e.id := by
  induction l with
  | nil => intro e0 e he; simp [createdExercises] at he
  | cons en rest ih =>
    intro e0 e he
    simp only [createdExercises, List.mem_cons] at he
    cases he with
    | inl h => rw [h]; exact ⟨rfl, Nat.le_refl e0⟩
    | inr h => exact ⟨(ih e h).1, Nat.le_trans (Nat.le_succ e0) (ih e h).2⟩

theorem createdExercises_proj (wid : Nat) (l : List WorkoutEntry) :
    ∀ (e0 s0 : Nat) (oldSets : List SetRow),
    (∀ r ∈ oldSets, r.exerciseId < e0) →
    (createdExercises wid l e0).map (fun e =>
      (e.name, ((oldSets ++ createdSets l e0 s0).filter
        (fun r => r.exerciseId == e.id)).map (fun r => (r.reps, r.weight)))) =
      l.map (fun en => (en.exercise, [(en.reps, en.weight)])) := by
  induction l with
  | nil => intro e0 s0 oldSets hold; simp [createdExercises]
  | cons en rest ih =>
    intro e0 s0 oldSets hold
    simp only [createdExercises, createdSets, List.map_cons, List.cons.injEq]
    constructor
    · have h1 : oldSets.filter (fun r => r.exerciseId == e0) = [] := by
        apply List.filter_eq_nil_iff.mpr
        intro r hr
        simp
        exact Nat.ne_of_lt (hold r hr)
      have h2 : (createdSets rest (e0 + 1) (s0 + 1)).filter
          (fun r => r.exerciseId == e0) = [] := by
        apply List.filter_eq_nil_iff.mpr
        intro r hr
        simp
        have := createdSets_exerciseId_ge r hr
        omega
      simp [List.filter_append, h1, h2]
    · have harr : oldSets ++ ⟨s0, en.reps, en.weight, e0⟩ ::
          createdSets rest (e0 + 1) (s0 + 1) =
          (oldSets ++ [⟨s0, en.reps, en.weight, e0⟩]) ++
            createdSets rest (e0 + 1) (s0 + 1) := by
        simp
      simp only [harr]
      refine ih (e0 + 1) (s0 + 1) (oldSets ++ [⟨s0, en.reps, en.weight, e0⟩]) ?_
      intro r hr
      rcases List.mem_append.mp hr with h | h
      · exact Nat.lt_trans (hold r h) (Nat.lt_succ_self e0)
      · simp at h; rw [h]; exact Nat.lt_succ_self e0

theorem createdExercises_length (wid : Nat) (l : List WorkoutEntry) :
    ∀ e0, (createdExercises wid l e0).length = l.length := by
  induction l with
  | nil => intro e0; rfl
  | cons en rest ih => intro e0; simp [createdExercises, ih]

/-- C1: a create request with a non-empty entry list succeeds, and the
created workout has exactly one exercise per entry, in order, each carrying
the entry's name and exactly one set with the entry's reps and weight —
duplicate names included, with no merging. -/
theorem create_one_exercise_per_entry (s : Store) (now : Nat)
    (entries : List WorkoutEntry) (hWF : s.WF) (hne : entries ≠ []) :
    ∃ resp, (createWorkout s now (some entries)).1 = Except.ok resp ∧
      resp.exercises.length = entries.length ∧
      resp.exercises.map (fun e => (e.name, e.sets.map (fun st => (st.reps, st.weight)))) =
        entries.map (fun en => (en.exercise, [(en.reps, en.weight)])) := by
  obtain ⟨hW, hE, hS, hEW, hSE⟩ := hWF
  have h_old_filter : s.exercises.filter
      (fun e => e.workoutId == s.nextWorkoutId) = [] := by
    apply List.filter_eq_nil_iff.mpr
    intro e he
    obtain ⟨w, hw, hew⟩ := hEW e he
    simp [hew]
    exact Nat.ne_of_lt (hW w hw)
  have h_created_filter : (createdExercises s.nextWorkoutId entries
      s.nextExerciseId).filter (fun e => e.workoutId == s.nextWorkoutId) =
      createdExercises s.nextWorkoutId entries s.nextExerciseId := by
    apply List.filter_eq_self.mpr
    intro e he
    simp [(createdExercises_mem e he).1]
  have hold : ∀ r ∈ s.sets, r.exerciseId < s.nextExerciseId := by
    intro r hr
    obtain ⟨e, he, hre⟩ := hSE r hr
    rw [hre]
    exact hE e he
  simp only [createWorkout]
  rw [if_neg (by simpa using hne)]
  refine ⟨_, rfl, ?_, ?_⟩
  all_goals rw [foldl_addEntry_eq]
  · simp [nestedWorkout, List.filter_append, h_old_filter, h_created_filter,
      createdExercises_length]
  · simp only [nestedWorkout]
    rw [List.filter_append, h_old_filter, List.nil_append, h_created_filter,
      List.map_map]
    refine Eq.trans ?_ (createdExercises_proj s.nextWorkoutId entries
      s.nextExerciseId s.nextSetId s.sets hold)
    apply List.map_congr_left
    intro e he
    simp [exerciseResp, setResp, List.map_map, Function.comp_def]

/-- C5: list-workouts returns all stored workouts with their nested data (a
permutation of the nested include of the workouts table) and the returned
list is ordered by date descending, so a workout with a strictly larger
date appears strictly before one with a smaller date. -/
theorem list_workouts_complete_sorted_desc (s : Store) :
    (listWorkouts s).1.Perm (s.workouts.map (nestedWorkout s)) ∧
    (listWorkouts s).1.Pairwise (fun a b => b.date ≤ a.date) ∧
    ∀ (i j : Fin (listWorkouts s).1.length), i < j →
      ((listWorkouts s).1.get j).date ≤ ((listWorkouts s).1.get i).date := by
  have hperm : (listWorkouts s).1.Perm (s.workouts.map (nestedWorkout s)) :=
    (List.perm_insertionSort dateDesc s.workouts).map (nestedWorkout s)
  have hpair : (listWorkouts s).1.Pairwise (fun a b => b.date ≤ a.date) := by
    have hsorted := List.sorted_insertionSort dateDesc s.workouts
    unfold listWorkouts
    rw [List.pairwise_map]
    exact hsorted
  exact ⟨hperm, hpair, fun i j hij => List.pairwise_iff_get.mp hpair i j hij⟩

/-- C5 witness: on a store holding dates 5 and 9, the second listed workout
has a date no larger than the first. -/
theorem list_workouts_complete_sorted_desc_witness :
    ((listWorkouts ⟨[⟨1, 5⟩, ⟨2, 9⟩], [], [], 3, 1, 1⟩).1.get
        ⟨1, by decide⟩).date ≤
      ((listWorkouts ⟨[⟨1, 5⟩, ⟨2, 9⟩], [], [], 3, 1, 1⟩).1.get ⟨0, by decide⟩).date :=
  (list_workouts_complete_sorted_desc ⟨[⟨1, 5⟩, ⟨2, 9⟩], [], [], 3, 1, 1⟩).2.2
    ⟨0, by decide⟩ ⟨1, by decide⟩ (by decide)

/-- C6: for a well-formed store and a parsed id, delete-workout either
removes the matching workout together with all of its exercises and their
sets, leaving no orphaned rows (every remaining exercise and set still
references an existing parent), and succeeds — or, when no workout matches,
fails with NotFound leaving the store unchanged. -/
theorem delete_cascades_or_notFound (s : Store) (idStr : String) (n : Nat)
    (hWF : s.WF) (hparse : parseIntJS idStr = some (n : Int)) :
    ((∃ w ∈ s.workouts, w.id = n) →
      (deleteWorkout s idStr).1 = Except.ok "Workout deleted successfully." ∧
      (∀ w ∈ (deleteWorkout s idStr).2.workouts, w.id ≠ n) ∧
      (∀ e ∈ (deleteWorkout s idStr).2.exercises, e.workoutId ≠ n) ∧
      (∀ r ∈ (deleteWorkout s idStr).2.sets, ∀ e ∈ s.exercises,
        e.workoutId = n → r.exerciseId ≠ e.id) ∧
      (∀ e ∈ (deleteWorkout s idStr).2.exercises,
        ∃ w ∈ (deleteWorkout s idStr).2.workouts, e.workoutId = w.id) ∧
      (∀ r ∈ (deleteWorkout s idStr).2.sets,
        ∃ e ∈ (deleteWorkout s idStr).2.exercises, r.exerciseId = e.id)) ∧
    ((¬ ∃ w ∈ s.workouts, w.id = n) →
      (deleteWorkout s idStr).1 = Except.error ApiError.notFound ∧
      (deleteWorkout s idStr).2 = s) := by
  obtain ⟨hW, hE, hS, hEW, hSE⟩ := hWF
  unfold deleteWorkout
  rw [hparse]
  cases hf : s.workouts.find? (fun w => (w.id : Int) == (n : Int)) with
  | none =>
    have hnone : ∀ w ∈ s.workouts, w.id ≠ n := by
      intro w hw
      have := List.find?_eq_none.mp hf w hw
      simpa using this
    constructor
    · rintro ⟨w, hw, hwid⟩
      exact absurd hwid (hnone w hw)
    · intro _
      simp [hf]
  | some w0 =>
    have hw0 : w0.id = n := by
      have := List.find?_some hf
      simpa using this
    have hw0mem : w0 ∈ s.workouts := List.mem_of_find?_eq_some hf
    constructor
    · intro _
      simp only [hf]
      refine ⟨trivial, ?_, ?_, ?_, ?_, ?_⟩
      · intro w hw
        rw [List.mem_filter] at hw
        have := hw.2
        simp at this
        rw [← hw0]
        exact this
      · intro e he
        rw [List.mem_filter] at he
        have := he.2
        simp at this
        rw [← hw0]
        exact this
      · intro r hr e he hwid
        rw [List.mem_filter] at hr
        have h2 := hr.2
        simp at h2
        intro hre
        exact absurd (hw0 ▸ hwid) (h2 e he hre.symm)
      · intro e he
        rw [List.mem_filter] at he
        obtain ⟨hmem, hne⟩ := he
        simp at hne
        obtain ⟨w, hw, hew⟩ := hEW e hmem
        refine ⟨w, ?_, hew⟩
        rw [List.mem_filter]
        refine ⟨hw, ?_⟩
        simp
        rw [← hew]
        exact hne
      · intro r hr
        rw [List.mem_filter] at hr
        obtain ⟨hmem, hne⟩ := hr
        simp at hne
        obtain ⟨e, he, hre⟩ := hSE r hmem
        refine ⟨e, ?_, hre⟩
        rw [List.mem_filter]
        refine ⟨he, ?_⟩
        simp
        exact hne e he hre.symm
    · rintro hns
      exact absurd ⟨w0, hw0mem, hw0⟩ hns

theorem addSet_nonneg {s : Store} {eid : Nat} {reps weight : Int}
    (h0 : SetsNonneg s) (hr : 0 ≤ reps) (hw : 0 ≤ weight) :
    SetsNonneg (addSet s eid reps weight) := by
  intro r hrm
  simp only [addSet, List.mem_append, List.mem_singleton] at hrm
  cases hrm with
  | inl h => exact h0 r h
  | inr h => rw [h]; exact ⟨hr, hw⟩

theorem create_fold_nonneg {entries : List WorkoutEntry} {wid : Nat} :
    ∀ {s : Store}, SetsNonneg s →
    (∀ en ∈ entries, 0 ≤ en.reps ∧ 0 ≤ en.weight) →
    SetsNonneg (entries.foldl (addEntry wid) s) := by
  induction entries with
  | nil => intro s h0 _; exact h0
  | cons en rest ih =>
    intro s h0 hent
    rw [List.foldl_cons]
    refine ih ?_ (fun e he => hent e (List.mem_cons_of_mem en he))
    have hen := hent en (List.mem_cons_self en rest)
    intro r hrm
    simp only [addEntry, addSet, List.mem_append, List.mem_singleton] at hrm
    cases hrm with
    | inl h => exact h0 r h
    | inr h => rw [h]; exact hen

theorem createWorkout_nonneg {s : Store} {now : Nat}
    {req : Option (List WorkoutEntry)} (h0 : SetsNonneg s)
    (hreq : OpNonneg (Op.create now req)) :
    SetsNonneg (createWorkout s now req).2 := by
  cases req with
  | none => exact h0
  | some entries =>
    unfold createWorkout
    by_cases he : entries.isEmpty
    · simp [he]; exact h0
    · simp [he]
      exact create_fold_nonneg (fun r hr => h0 r hr) hreq

theorem upsertSet_nonneg {s : Store} {eid : Nat} {us : UpdateSet}
    (h0 : SetsNonneg s) (hr : 0 ≤ us.reps) (hw : 0 ≤ us.weight) :
    SetsNonneg (upsertSet s eid us) := by
  unfold upsertSet
  cases hid : us.id with
  | none => exact h0
  | some sid =>
    by_cases hany : s.sets.any (fun r => r.id == sid && r.exerciseId == eid)
    · simp only [hany, if_true]
      intro r hrm
      rw [List.mem_map] at hrm
      obtain ⟨r0, hr0, heq⟩ := hrm
      by_cases hc : (r0.id == sid && r0.exerciseId == eid) = true
      · rw [← heq]; simp only [hc, if_true]; exact ⟨hr, hw⟩
      · rw [← heq]; simp only [hc, if_false]; exact h0 r0 hr0
    · simp only [Bool.not_eq_true] at hany
      simp only [hany, Bool.false_eq_true, if_false]
      exact addSet_nonneg h0 hr hw

theorem addSet_fold_nonneg {l : List UpdateSet} {eid : Nat} :
    ∀ {s : Store}, SetsNonneg s →
    (∀ us ∈ l, 0 ≤ us.reps ∧ 0 ≤ us.weight) →
    SetsNonneg (l.foldl (fun acc us => addSet acc eid us.reps us.weight) s) := by
  induction l with
  | nil => intro s h0 _; exact h0
  | cons us rest ih =>
    intro s h0 hl
    rw [List.foldl_cons]
    refine ih ?_ (fun x hx => hl x (List.mem_cons_of_mem us hx))
    have h1 := hl us (List.mem_cons_self us rest)
    exact addSet_nonneg h0 h1.1 h1.2

theorem upsertSet_fold_nonneg {l : List UpdateSet} {eid : Nat} :
    ∀ {s : Store}, SetsNonneg s →
    (∀ us ∈ l, 0 ≤ us.reps ∧ 0 ≤ us.weight) →
    SetsNonneg (l.foldl (fun acc us => upsertSet acc eid us) s) := by
  induction l with
  | nil => intro s h0 _; exact h0
  | cons us rest ih =>
    intro s h0 hl
    rw [List.foldl_cons]
    refine ih ?_ (fun x hx => hl x (List.mem_cons_of_mem us hx))
    have h1 := hl us (List.mem_cons_self us rest)
    exact upsertSet_nonneg h0 h1.1 h1.2

theorem createExerciseWithSets_nonneg {s : Store} {wid : Nat}
    {ue : UpdateExercise} (h0 : SetsNonneg s)
    (hl : ∀ us ∈ ue.sets, 0 ≤ us.reps ∧ 0 ≤ us.weight) :
    SetsNonneg (createExerciseWithSets s wid ue) := by
  unfold createExerciseWithSets
  exact addSet_fold_nonneg (fun r hr => h0 r hr) hl

theorem upsertExercise_nonneg {s : Store} {wid : Nat} {ue : UpdateExercise}
    (h0 : SetsNonneg s)
    (hl : ∀ us ∈ ue.sets, 0 ≤ us.reps ∧ 0 ≤ us.weight) :
    SetsNonneg (upsertExercise s wid ue) := by
  unfold upsertExercise
  cases hid : ue.id with
  | none => exact h0
  | some eid =>
    by_cases hany : s.exercises.any (fun e => e.id == eid && e.workoutId == wid)
    · simp only [hany, if_true]
      exact upsertSet_fold_nonneg (fun r hr => h0 r hr) hl
    · simp only [Bool.not_eq_true] at hany
      simp only [hany, Bool.false_eq_true, if_false]
      exact createExerciseWithSets_nonneg h0 hl

theorem upsertExercise_fold_nonneg {exs : List UpdateExercise} {wid : Nat} :
    ∀ {s : Store}, SetsNonneg s →
    (∀ ue ∈ exs, ∀ us ∈ ue.sets, 0 ≤ us.reps ∧ 0 ≤ us.weight) →
    SetsNonneg (exs.foldl (fun acc ue => upsertExercise acc wid ue) s) := by
  induction exs with
  | nil => intro s h0 _; exact h0
  | cons ue rest ih =>
    intro s h0 hl
    rw [List.foldl_cons]
    refine ih ?_ (fun x hx => hl x (List.mem_cons_of_mem ue hx))
    exact upsertExercise_nonneg h0 (hl ue (List.mem_cons_self ue rest))

theorem updateWorkout_nonneg {s : Store} {idStr : String} {req : UpdateReq}
    (h0 : SetsNonneg s) (hreq : OpNonneg (Op.update idStr req)) :
    SetsNonneg (updateWorkout s idStr req).2 := by
  unfold updateWorkout
  cases hp : parseIntJS idStr with
  | none => exact h0
  | some wid =>
    cases hf : s.workouts.find? (fun w => (w.id : Int) == wid) with
    | none => simp only [hf]; exact h0
    | some w =>
      simp only [hf]
      by_cases hv : validUpdateReq req
      · simp only [hv, if_true]
        obtain ⟨d, exs⟩ := req
        cases exs with
        | none =>
          cases d with
          | none => exact h0
          | some dv => exact fun r hr => h0 r hr
        | some l =>
          cases d with
          | none => exact upsertExercise_fold_nonneg (fun r hr => h0 r hr) hreq
          | some dv => exact upsertExercise_fold_nonneg (fun r hr => h0 r hr) hreq
      · simp only [hv, Bool.false_eq_true, if_false]
        exact h0

theorem runOps_nonneg (ops : List Op) : ∀ (s : Store), SetsNonneg s →
    (∀ op ∈ ops, OpNonneg op) → SetsNonneg (runOps s ops) := by
  induction ops with
  | nil => intro s h0 _; exact h0
  | cons op rest ih =>
    intro s h0 hops
    have hstep : SetsNonneg (applyOp s op) := by
      have hop := hops op (List.mem_cons_self op rest)
      cases op with
      | create now req => exact createWorkout_nonneg h0 hop
      | update idStr req => exact updateWorkout_nonneg h0 hop
    exact ih (applyOp s op) hstep (fun x hx => hops x (List.mem_cons_of_mem op hx))

/-- C7 (counterexample): the API never validates signs — creating a workout
from the entry (\"Squat\", weight -5, reps -3) stores a set with negative
reps and weight, violating the claimed invariant. -/
theorem sets_nonneg_counterexample :
    SetsNonneg emptyStore ∧
    ¬ SetsNonneg (runOps emptyStore [Op.create 0 (some [⟨"Squat", -5, -3⟩])]) :=
  ⟨by decide, by decide⟩

/-- C7 (amended): the store holds exactly the supplied values, so after any
sequence of create-workout and update-workout operations all of whose
supplied entries and sets have reps ≥ 0 and weight ≥ 0, every stored set
has reps ≥ 0 and weight ≥ 0. -/
theorem ops_preserve_sets_nonneg (s : Store) (ops : List Op)
    (h0 : SetsNonneg s) (hops : ∀ op ∈ ops, OpNonneg op) :
    SetsNonneg (runOps s ops) :=
  runOps_nonneg ops s h0 hops

/-- C7 witness: a create followed by an update, all values non-negative. -/
theorem ops_preserve_sets_nonneg_witness :
    SetsNonneg (runOps emptyStore
      [Op.create 0 (some [⟨"Squat", 100, 5⟩]),
       Op.update "1" ⟨none, some [⟨some 1, "Front Squat",
         [⟨some 1, 6, 110⟩, ⟨some 2, 4, 90⟩]⟩]⟩]) :=
  ops_preserve_sets_nonneg emptyStore _ (by decide) (by decide)

/-- C6 witness: deleting workout 1 from a one-workout store succeeds, and
deleting the absent id 9 leaves the store unchanged. -/
theorem delete_cascades_or_notFound_witness :
    (deleteWorkout ⟨[⟨1, 5⟩], [⟨1, "Squat", 1⟩], [⟨1, 5, 100, 1⟩], 2, 2, 2⟩ "1").1 =
      Except.ok "Workout deleted successfully." ∧
    (deleteWorkout ⟨[⟨1, 5⟩], [⟨1, "Squat", 1⟩], [⟨1, 5, 100, 1⟩], 2, 2, 2⟩ "9").2 =
      ⟨[⟨1, 5⟩], [⟨1, "Squat", 1⟩], [⟨1, 5, 100, 1⟩], 2, 2, 2⟩ :=
  ⟨((delete_cascades_or_notFound ⟨[⟨1, 5⟩], [⟨1, "Squat", 1⟩], [⟨1, 5, 100, 1⟩], 2, 2, 2⟩
      "1" 1 (by decide) (by decide)).1 ⟨⟨1, 5⟩, by decide, rfl⟩).1,
   ((delete_cascades_or_notFound ⟨[⟨1, 5⟩], [⟨1, "Squat", 1⟩], [⟨1, 5, 100, 1⟩], 2, 2, 2⟩
      "9" 9 (by decide) (by decide)).2 (by decide)).2⟩

/-- C1 witness: the theorem instantiated on the empty store and two entries
sharing the name "Squat". -/
theorem create_one_exercise_per_entry_witness :
    ∃ resp, (createWorkout emptyStore 7
        (some [⟨"Squat", 100, 5⟩, ⟨"Squat", 90, 3⟩])).1 = Except.ok resp ∧
      resp.exercises.length =
        ([⟨"Squat", 100, 5⟩, ⟨"Squat", 90, 3⟩] : List WorkoutEntry).length ∧
      resp.exercises.map (fun e => (e.name, e.sets.map (fun st => (st.reps, st.weight)))) =
        ([⟨"Squat", 100, 5⟩, ⟨"Squat", 90, 3⟩] : List WorkoutEntry).map
          (fun en => (en.exercise, [(en.reps, en.weight)])) :=
  create_one_exercise_per_entry emptyStore 7 _ (by decide) (by decide)


theorem upsertSet_exercises (s : Store) (eid : Nat) (us : UpdateSet) :
    (upsertSet s eid us).exercises = s.exercises := by
  unfold upsertSet
  cases us.id with
  | none => rfl
  | some sid =>
    by_cases h : s.sets.any (fun r => r.id == sid && r.exerciseId == eid) <;>
      simp [h, addSet]

theorem upsertSet_fold_exercises (l : List UpdateSet) (eid : Nat) :
    ∀ (s : Store), (l.foldl (fun acc us => upsertSet acc eid us) s).exercises =
      s.exercises := by
  induction l with
  | nil => intro s; rfl
  | cons us rest ih =>
    intro s
    rw [List.foldl_cons, ih, upsertSet_exercises]

theorem mem_sets_upsertSet {s : Store} {eid : Nat} {us : UpdateSet} {r : SetRow}
    (hr : r ∈ s.sets) (hid : us.id ≠ some r.id) : r ∈ (upsertSet s eid us).sets := by
  unfold upsertSet
  cases hu : us.id with
  | none => exact hr
  | some sid =>
    have hne : r.id ≠ sid := by
      intro h
      exact hid (by rw [hu, h])
    by_cases h : s.sets.any (fun rr => rr.id == sid && rr.exerciseId == eid)
    · simp only [h, if_true]
      have hbeq : (r.id == sid) = false := beq_eq_false_iff_ne.mpr hne
      have heq : (fun rr => if (rr.id == sid && rr.exerciseId == eid) = true then
          { rr with reps := us.reps, weight := us.weight } else rr) r = r := by
        simp [hbeq]
      rw [← heq]
      exact List.mem_map_of_mem _ hr
    · simp only [Bool.not_eq_true] at h
      simp only [h, Bool.false_eq_true, if_false, addSet, List.mem_append]
      exact Or.inl hr

theorem mem_sets_upsertSet_fold {l : List UpdateSet} {eid : Nat} :
    ∀ {s : Store} {r : SetRow}, r ∈ s.sets → (∀ us ∈ l, us.id ≠ some r.id) →
    r ∈ (l.foldl (fun acc us => upsertSet acc eid us) s).sets := by
  induction l with
  | nil => intro s r hr _; exact hr
  | cons us rest ih =>
    intro s r hr hl
    rw [List.foldl_cons]
    exact ih (mem_sets_upsertSet hr (hl us (List.mem_cons_self us rest)))
      (fun x hx => hl x (List.mem_cons_of_mem us hx))

theorem addSet_fold_exercises (l : List UpdateSet) (eid : Nat) :
    ∀ (s : Store), (l.foldl (fun acc us => addSet acc eid us.reps us.weight) s).exercises =
      s.exercises := by
  induction l with
  | nil => intro s; rfl
  | cons us rest ih =>
    intro s
    rw [List.foldl_cons, ih]
    rfl

theorem mem_sets_addSet_fold {l : List UpdateSet} {eid : Nat} :
    ∀ {s : Store} {r : SetRow}, r ∈ s.sets →
    r ∈ (l.foldl (fun acc us => addSet acc eid us.reps us.weight) s).sets := by
  induction l with
  | nil => intro s r hr; exact hr
  | cons us rest ih =>
    intro s r hr
    rw [List.foldl_cons]
    refine ih ?_
    simp [addSet]
    exact Or.inl hr

theorem mem_exercises_createExerciseWithSets {s : Store} {wid : Nat}
    {ue : UpdateExercise} {e : ExerciseRow} (he : e ∈ s.exercises) :
    e ∈ (createExerciseWithSets s wid ue).exercises := by
  unfold createExerciseWithSets
  rw [addSet_fold_exercises]
  simp
  exact Or.inl he

theorem mem_sets_createExerciseWithSets {s : Store} {wid : Nat}
    {ue : UpdateExercise} {r : SetRow} (hr : r ∈ s.sets) :
    r ∈ (createExerciseWithSets s wid ue).sets := by
  unfold createExerciseWithSets
  exact mem_sets_addSet_fold hr

theorem mem_exercises_upsertExercise {s : Store} {wid : Nat}
    {ue : UpdateExercise} {e : ExerciseRow} (he : e ∈ s.exercises)
    (hid : ue.id ≠ some e.id) : e ∈ (upsertExercise s wid ue).exercises := by
  unfold upsertExercise
  cases hu : ue.id with
  | none => exact he
  | some eid =>
    have hne : e.id ≠ eid := by
      intro h
      exact hid (by rw [hu, h])
    by_cases h : s.exercises.any (fun x => x.id == eid && x.workoutId == wid)
    · simp only [h, if_true]
      rw [upsertSet_fold_exercises]
      have hbeq : (e.id == eid) = false := beq_eq_false_iff_ne.mpr hne
      have heq : (fun x => if (x.id == eid && x.workoutId == wid) = true then
          { x with name := ue.name } else x) e = e := by
        simp [hbeq]
      rw [← heq]
      exact List.mem_map_of_mem _ he
    · simp only [Bool.not_eq_true] at h
      simp only [h, Bool.false_eq_true, if_false]
      exact mem_exercises_createExerciseWithSets he

theorem mem_sets_upsertExercise {s : Store} {wid : Nat} {ue : UpdateExercise}
    {r : SetRow} (hr : r ∈ s.sets)
    (hl : ∀ us ∈ ue.sets, us.id ≠ some r.id) :
    r ∈ (upsertExercise s wid ue).sets := by
  unfold upsertExercise
  cases hu : ue.id with
  | none => exact hr
  | some eid =>
    by_cases h : s.exercises.any (fun x => x.id == eid && x.workoutId == wid)
    · simp only [h, if_true]
      exact mem_sets_upsertSet_fold hr hl
    · simp only [Bool.not_eq_true] at h
      simp only [h, Bool.false_eq_true, if_false]
      exact mem_sets_createExerciseWithSets hr

theorem mem_exercises_upsertExercise_fold {exs : List UpdateExercise} {wid : Nat} :
    ∀ {s : Store} {e : ExerciseRow}, e ∈ s.exercises →
    (∀ ue ∈ exs, ue.id ≠ some e.id) →
    e ∈ (exs.foldl (fun acc ue => upsertExercise acc wid ue) s).exercises := by
  induction exs with
  | nil => intro s e he _; exact he
  | cons ue rest ih =>
    intro s e he hl
    rw [List.foldl_cons]
    exact ih (mem_exercises_upsertExercise he (hl ue (List.mem_cons_self ue rest)))
      (fun x hx => hl x (List.mem_cons_of_mem ue hx))

theorem mem_sets_upsertExercise_fold {exs : List UpdateExercise} {wid : Nat} :
    ∀ {s : Store} {r : SetRow}, r ∈ s.sets →
    (∀ ue ∈ exs, ∀ us ∈ ue.sets, us.id ≠ some r.id) →
    r ∈ (exs.foldl (fun acc ue => upsertExercise acc wid ue) s).sets := by
  induction exs with
  | nil => intro s r hr _; exact hr
  | cons ue rest ih =>
    intro s r hr hl
    rw [List.foldl_cons]
    exact ih (mem_sets_upsertExercise hr (hl ue (List.mem_cons_self ue rest)))
      (fun x hx => hl x (List.mem_cons_of_mem ue hx))


/-- C2: update-workout never deletes by omission: every exercise row whose id
is not among the supplied exercises, and every set row whose id is not among
the supplied sets, is still present, unchanged, after the update. -/
theorem update_never_deletes_by_omission (s : Store) (idStr : String)
    (d : Option Nat) (exs : List UpdateExercise) :
    (∀ e ∈ s.exercises, (∀ ue ∈ exs, ue.id ≠ some e.id) →
      e ∈ (updateWorkout s idStr ⟨d, some exs⟩).2.exercises) ∧
    (∀ r ∈ s.sets, (∀ ue ∈ exs, ∀ us ∈ ue.sets, us.id ≠ some r.id) →
      r ∈ (updateWorkout s idStr ⟨d, some exs⟩).2.sets) := by
  unfold updateWorkout
  cases hp : parseIntJS idStr with
  | none => exact ⟨fun e he _ => he, fun r hr _ => hr⟩
  | some wid =>
    cases hf : s.workouts.find? (fun w => (w.id : Int) == wid) with
    | none => simp only [hf]; exact ⟨fun e he _ => he, fun r hr _ => hr⟩
    | some w =>
      simp only [hf]
      by_cases hv : validUpdateReq ⟨d, some exs⟩
      · simp only [hv, if_true]
        cases d with
        | none =>
          exact ⟨fun e he hl => mem_exercises_upsertExercise_fold he hl,
                 fun r hr hl => mem_sets_upsertExercise_fold hr hl⟩
        | some dv =>
          exact ⟨fun e he hl => mem_exercises_upsertExercise_fold he hl,
                 fun r hr hl => mem_sets_upsertExercise_fold hr hl⟩
      · simp only [hv, Bool.false_eq_true, if_false]
        exact ⟨fun e he _ => he, fun r hr _ => hr⟩

/-- C2 witness: updating only exercise 2 of a two-exercise workout leaves
exercise 1 and its set untouched in the store. -/
theorem update_never_deletes_by_omission_witness :
    (⟨1, "Bench Press", 1⟩ : ExerciseRow) ∈
      (updateWorkout ⟨[⟨1, 5⟩], [⟨1, "Bench Press", 1⟩, ⟨2, "Squat", 1⟩],
        [⟨1, 5, 100, 1⟩, ⟨2, 3, 90, 2⟩], 2, 3, 3⟩ "1"
        ⟨none, some [⟨some 2, "Front Squat", [⟨some 2, 8, 70⟩]⟩]⟩).2.exercises ∧
    (⟨1, 5, 100, 1⟩ : SetRow) ∈
      (updateWorkout ⟨[⟨1, 5⟩], [⟨1, "Bench Press", 1⟩, ⟨2, "Squat", 1⟩],
        [⟨1, 5, 100, 1⟩, ⟨2, 3, 90, 2⟩], 2, 3, 3⟩ "1"
        ⟨none, some [⟨some 2, "Front Squat", [⟨some 2, 8, 70⟩]⟩]⟩).2.sets :=
  ⟨(update_never_deletes_by_omission ⟨[⟨1, 5⟩], [⟨1, "Bench Press", 1⟩, ⟨2, "Squat", 1⟩],
      [⟨1, 5, 100, 1⟩, ⟨2, 3, 90, 2⟩], 2, 3, 3⟩ "1" none
      [⟨some 2, "Front Squat", [⟨some 2, 8, 70⟩]⟩]).1 ⟨1, "Bench Press", 1⟩
      (by decide) (by decide),
   (update_never_deletes_by_omission ⟨[⟨1, 5⟩], [⟨1, "Bench Press", 1⟩, ⟨2, "Squat", 1⟩],
      [⟨1, 5, 100, 1⟩, ⟨2, 3, 90, 2⟩], 2, 3, 3⟩ "1" none
      [⟨some 2, "Front Squat", [⟨some 2, 8, 70⟩]⟩]).2 ⟨1, 5, 100, 1⟩
      (by decide) (by decide)⟩


theorem createWorkout_some (s : Store) (now : Nat) (entries : List WorkoutEntry)
    (he : entries.isEmpty = false) :
    createWorkout s now (some entries) =
      (Except.ok (nestedWorkout
        (entries.foldl (addEntry s.nextWorkoutId) (createBase s now))
        ⟨s.nextWorkoutId, now⟩),
       entries.foldl (addEntry s.nextWorkoutId) (createBase s now)) := by
  simp only [createWorkout, createBase]
  rw [if_neg (by rw [he]; exact Bool.false_ne_true)]

/-- C8: get after create round-trips: for a successful create on a
well-formed store, getting the returned id yields exactly the workout object
the create returned, and leaves the store unchanged. -/
theorem get_after_create_roundtrip (s : Store) (now : Nat)
    (entries : List WorkoutEntry) (idStr : String) (resp : WorkoutResp)
    (hWF : s.WF) (hok : (createWorkout s now (some entries)).1 = Except.ok resp)
    (hparse : parseIntJS idStr = some (resp.id : Int)) :
    (getWorkoutById (createWorkout s now (some entries)).2 idStr).1 =
      Except.ok resp ∧
    (getWorkoutById (createWorkout s now (some entries)).2 idStr).2 =
      (createWorkout s now (some entries)).2 := by
  by_cases he : entries.isEmpty
  · simp [createWorkout, he] at hok
  · rw [Bool.not_eq_true] at he
    rw [createWorkout_some s now entries he] at hok
    have hresp : resp = nestedWorkout
        (entries.foldl (addEntry s.nextWorkoutId) (createBase s now))
        ⟨s.nextWorkoutId, now⟩ := (Except.ok.inj hok).symm
    have hid : resp.id = s.nextWorkoutId := by rw [hresp]; rfl
    have hworkouts : (entries.foldl (addEntry s.nextWorkoutId)
        (createBase s now)).workouts = s.workouts ++ [⟨s.nextWorkoutId, now⟩] := by
      rw [foldl_addEntry_eq]
      rfl
    have hf1 : s.workouts.find?
        (fun w => (w.id : Int) == (s.nextWorkoutId : Int)) = none := by
      apply List.find?_eq_none.mpr
      intro w hw
      simp
      exact Nat.ne_of_lt (hWF.1 w hw)
    have hfind : (entries.foldl (addEntry s.nextWorkoutId)
        (createBase s now)).workouts.find?
        (fun w => (w.id : Int) == (s.nextWorkoutId : Int)) =
        some ⟨s.nextWorkoutId, now⟩ := by
      rw [hworkouts, List.find?_append, hf1]
      simp
    rw [createWorkout_some s now entries he]
    simp only [getWorkoutById, hparse, hid]
    simp only [hfind]
    exact ⟨by rw [hresp], trivial⟩


/-- C8 witness: create on the empty store, then get id \"1\". -/
theorem get_after_create_roundtrip_witness :
    (getWorkoutById (createWorkout emptyStore 7 (some [⟨"Squat", 100, 5⟩])).2 "1").1 =
      Except.ok ⟨1, 7, [⟨1, "Squat", [⟨1, 5, 100⟩]⟩]⟩ ∧
    (getWorkoutById (createWorkout emptyStore 7 (some [⟨"Squat", 100, 5⟩])).2 "1").2 =
      (createWorkout emptyStore 7 (some [⟨"Squat", 100, 5⟩])).2 :=
  get_after_create_roundtrip emptyStore 7 [⟨"Squat", 100, 5⟩] "1"
    ⟨1, 7, [⟨1, "Squat", [⟨1, 5, 100⟩]⟩]⟩ (by decide) (by decide) (by decide)

end WorkoutLogger
